import Mathlib

/-!
Verification of the FireFlyJar firmware core: the cooperative tick
scheduler (`system.c`), the firefly animation engine (`fireflies.c`) and
the time-multiplexed LED output driver (`leds.c`), shallowly embedded in
Lean.  C `uint32_t` arithmetic is modelled as `Nat` with explicit
`% 2^32`; C signed 32-bit quantities that never overflow in the program
are modelled as `Int`; C integer division (truncation toward zero) is
`Int.tdiv`.
-/

/-! ## Scheduler (`system.c`) -/

/-- Maximum number of system tasks (`SYSTEM_TASKS_MAX` in `system.h`). -/
def SYSTEM_TASKS_MAX : Nat := 10

/-- One entry of `s_task_list` (`task_list_type` in `system.c`): a task
function pointer (`none` models `NULL`, task identities are `Nat`) and a
period in ticks. Static storage zero-initializes both fields, so an
unused slot is `⟨none, 0⟩`. -/
structure TaskSlot where
  task : Option Nat
  period : Nat
deriving DecidableEq

/-- An empty (zero-initialized) task-list slot. -/
def emptySlot : TaskSlot := ⟨none, 0⟩

/-- The freshly zero-initialized task list `s_task_list`. -/
def fresh_task_list : List TaskSlot := List.replicate SYSTEM_TASKS_MAX emptySlot

/-- Embedding of `system_add_task` from `system.c`: scan the list; write
the task with period `max prd 1` into the first `NULL` slot and stop;
stop without writing at the first slot already holding the same task;
if the scan falls off the end the list is unchanged. -/
def system_add_task (tsk : Nat) (prd : Nat) : List TaskSlot → List TaskSlot
  | [] => []
  | s :: rest =>
    if s.task = none then ⟨some tsk, max prd 1⟩ :: rest
    else if s.task = some tsk then s :: rest
    else s :: system_add_task tsk prd rest

/-- Embedding of `system_remove_task` from `system.c`: every slot whose
task equals `tsk` is reset to `⟨NULL, 0⟩`. -/
def system_remove_task (tsk : Nat) (slots : List TaskSlot) : List TaskSlot :=
  slots.map (fun s => if s.task = some tsk then emptySlot else s)

/-- Observable events on the tick path of `execute_tasks`: `modOp a b`
records that the hardware evaluates the C expression
`(counter + i) % cur_task->period` with dividend `a` and divisor `b`
(the modulo is evaluated before the `task != NULL` test, because `&&`
evaluates left to right), and `runTask i` records that slot `i`'s
callback is invoked. -/
inductive TickEvent
  | modOp (dividend divisor : Nat)
  | runTask (slot : Nat)
deriving DecidableEq

/-- Events produced for one slot of the task list on one tick:
`execute_tasks` always evaluates `((counter + i) % period)` (uint32
arithmetic: the dividend is `(c + i) % 2^32`), and calls the task iff
that modulo is zero and the task pointer is non-`NULL`. -/
def slot_events (c i : Nat) (s : TaskSlot) : List TickEvent :=
  TickEvent.modOp ((c + i) % 2 ^ 32) s.period ::
    (if ((c + i) % 2 ^ 32) % s.period = 0 ∧ s.task.isSome then
      [TickEvent.runTask i] else [])

/-- Trace of the `for` loop of `execute_tasks`, starting at slot index
`i`. -/
def tick_trace_aux (c : Nat) : Nat → List TaskSlot → List TickEvent
  | _, [] => []
  | i, s :: rest => slot_events c i s ++ tick_trace_aux c (i + 1) rest

/-- Trace of one full pass of `execute_tasks` over the task list when
the (post-increment) counter value is `c`. -/
def tick_trace (c : Nat) (slots : List TaskSlot) : List TickEvent :=
  tick_trace_aux c 0 slots

/-- Embedding of `execute_tasks` from `system.c`: increment the
persistent uint32 counter, then run the slot loop; returns the new
counter value together with the trace of the loop. -/
def execute_tasks (counter : Nat) (slots : List TaskSlot) :
    Nat × List TickEvent :=
  let c := (counter + 1) % 2 ^ 32
  (c, tick_trace c slots)

/-- Two tasks registered in slots 0 and 1, both with period 5 — the
configuration of the spec's scheduler-phase test. -/
def scheduler_demo_slots : List TaskSlot := [⟨some 0, 5⟩, ⟨some 1, 5⟩]

/-- The task list after `led_init` (registers `led_periodic_callback`
with period 1, here task id 0) and `firefly_init` (registers
`firefly_periodic_callback` with period `FIREFLY_TIMESTEP = 8`, task
id 1) have run on the freshly zero-initialized list: slots 2..9 remain
`⟨NULL, 0⟩`. -/
def firefly_jar_init_slots : List TaskSlot :=
  system_add_task 1 8 (system_add_task 0 1 fresh_task_list)

/-! ## LED output driver (`leds.c`) -/

/-- Modelled from the spec: the LED channel count `LED_COUNT` is defined
in `leds.h`, which is not among the sources; the spec (§3, §4.3) and the
repository readme fix the channel count at 8. -/
def LED_COUNT : Nat := 8

/-- Driver-facing calls made by the LED driver: a write of a logical
level to a GPIO pin (pins are numbered as in `analog_switch_io`:
select lines on PA9/PA10/PA11, NENABLE on PA12; `high = true` is
`GPIO_STATE_HIGH`), and a write to the DAC data register
`DAC->DHR12R1`. -/
inductive LedEvent
  | gpioSet (pin : Nat) (high : Bool)
  | dacWrite (v : Nat)
deriving DecidableEq

/-- Embedding of `dac_enable_output`: drive the analog switch NENABLE
pin (PA12) low to enable, high to disable. -/
def dac_enable_output (enable : Bool) : List LedEvent :=
  [LedEvent.gpioSet 12 (if enable then false else true)]

/-- Embedding of `dac_set_output`: write `dac_val & 0x00000FFF` to the
DAC 12-bit right-aligned data register. -/
def dac_set_output (dac_val : Nat) : List LedEvent :=
  [LedEvent.dacWrite (dac_val &&& 0xFFF)]

/-- Embedding of `dac_set_led`: drive each select line
`ANALOG_SWITCH_SELECT_k` (pin `9 + k`, `k = 0, 1, 2`) high iff bit `k`
of `led_id` is set (`led_id & (1 << k)`). -/
def dac_set_led (led_id : Nat) : List LedEvent :=
  (List.range 3).map
    (fun k => LedEvent.gpioSet (9 + k) (led_id &&& (1 <<< k) ≠ 0))

/-- Embedding of `led_update_brightness`: disable the analog switch
output, update the DAC output, select the switch output for the LED,
re-enable the analog switch output — in that order. -/
def led_update_brightness (led_id : Nat) (led_brightness : Nat) :
    List LedEvent :=
  dac_enable_output false ++ dac_set_output led_brightness ++
    dac_set_led led_id ++ dac_enable_output true

/-- Embedding of `led_set_brightness`: store the brightness into
`s_led_brightness[led_id]` if `led_id < LED_COUNT`, else do nothing.
The C array holds `int32_t` and the argument is `uint32_t`; the stored
bit pattern is the argument reduced mod `2^32`. -/
def led_set_brightness (led_id : Nat) (led_brightness : Nat)
    (arr : List Nat) : List Nat :=
  if led_id < LED_COUNT then arr.set led_id (led_brightness % 2 ^ 32)
  else arr

/-- Embedding of `led_periodic_callback`: one invocation updates the LED
selected by the static round-robin pointer `led_id` and advances the
pointer by one modulo `LED_COUNT`.  Returns (channel addressed, next
pointer value). -/
def led_periodic_callback (led_id : Nat) : Nat × Nat :=
  (led_id, (led_id + 1) % LED_COUNT)

/-- Channels addressed by `n` consecutive `led_periodic_callback`
invocations starting from pointer value `s`. -/
def led_rounds : Nat → Nat → List Nat
  | _, 0 => []
  | s, n + 1 =>
    (led_periodic_callback s).1 :: led_rounds (led_periodic_callback s).2 n

/-! ## Animation engine (`fireflies.c`) -/

/-- A flash point (`flash_point_type`): target brightness and transition
time. -/
structure FlashPoint where
  target : Int
  time : Int
deriving DecidableEq

/-- Flash of the Photinus pallens (`flash_patterns[0]`). -/
def flash_pattern_pallens : List FlashPoint :=
  [⟨800, 300⟩, ⟨1000, 100⟩, ⟨800, 200⟩, ⟨0, 400⟩]

/-- Flash of the Photinus lewisi (`flash_patterns[1]`). -/
def flash_pattern_lewisi : List FlashPoint :=
  [⟨500, 100⟩, ⟨500, 800⟩, ⟨0, 100⟩]

/-- Flash of the Photinus amplus (`flash_patterns[2]`). -/
def flash_pattern_amplus : List FlashPoint :=
  [⟨1000, 100⟩, ⟨1, 100⟩, ⟨1, 100⟩, ⟨1000, 100⟩, ⟨0, 100⟩]

/-- Flash of the Photinus xanthophotis (`flash_patterns[3]`). -/
def flash_pattern_xanthophotis : List FlashPoint :=
  [⟨1000, 200⟩, ⟨1, 100⟩, ⟨1, 200⟩, ⟨300, 100⟩, ⟨1, 100⟩, ⟨300, 100⟩,
    ⟨0, 100⟩]

/-- Flash of the Photuris jamaicensis (`flash_patterns[4]`). -/
def flash_pattern_jamaicensis : List FlashPoint :=
  [⟨500, 50⟩, ⟨500, 200⟩, ⟨0, 50⟩]

/-- Flash of the Photinus leucopyge (`flash_patterns[5]`). -/
def flash_pattern_leucopyge : List FlashPoint :=
  [⟨1000, 50⟩, ⟨1000, 200⟩, ⟨0, 50⟩]

/-- The flash pattern table `flash_patterns`.  Each C row is padded with
zero-initialized `{0, 0}` points up to `FIREFLY_FLASHPOINTS_MAX = 15`;
every traversal in `fireflies.c` stops at the first point with target 0,
so the padding is never read and is omitted here. -/
def flash_patterns : List (List FlashPoint) :=
  [flash_pattern_pallens, flash_pattern_lewisi, flash_pattern_amplus,
    flash_pattern_xanthophotis, flash_pattern_jamaicensis,
    flash_pattern_leucopyge]

/-- Embedding of `calculate_flash_length`: the loop
`for (i = 0; i == 0 || pattern[i-1].target != 0; i++)` accumulates
`pattern[i].time`, i.e. it sums the times of all points up to and
including the first point whose target is 0. -/
def calculate_flash_length : List FlashPoint → Int
  | [] => 0
  | p :: rest =>
    p.time + (if p.target = 0 then 0 else calculate_flash_length rest)

/-- Loop of `calculate_brightness_unsmoothed`: walk the points
accumulating end times (`endTime` is the end time of all points before
the current one, `prevTarget` the previous point's target — initially 0,
from the `clear_struct`-ed `flash_point_prv`).  At the first point `p`
with `t < endTime + p.time`, interpolate with C truncated division
(`Int.tdiv`); if the loop exits at the terminator instead, the cleared
`flash_point_cur` has `time = 0` and the result is 0. -/
def unsmoothedAux : List FlashPoint → Int → Int → Int → Int
  | [], _, _, _ => 0
  | p :: rest, prevTarget, endTime, t =>
    let endT := endTime + p.time
    if t < endT then
      if p.time = 0 then 0
      else
        Int.tdiv ((p.time - (endT - t)) * (p.target - prevTarget)) p.time +
          prevTarget
    else if p.target = 0 then 0
    else unsmoothedAux rest p.target endT t

/-- Embedding of `calculate_brightness_unsmoothed`: 0 for negative flash
time, otherwise the piecewise-linear interpolation of the pattern. -/
def calculate_brightness_unsmoothed (pts : List FlashPoint)
    (flash_time : Int) : Int :=
  if flash_time < 0 then 0 else unsmoothedAux pts 0 0 flash_time

/-- The double-weighted trapezoid contribution of one clipped interval
`[t1, t2]` in the loop of `calculate_brightness_smoothed`:
`(b2 + b1) * (t2 - t1)` with `b1`, `b2` the unsmoothed brightness at the
interval ends. -/
def smoothedTerm (full : List FlashPoint) (t1 t2 : Int) : Int :=
  (calculate_brightness_unsmoothed full t2 +
    calculate_brightness_unsmoothed full t1) * (t2 - t1)

/-- Loop of `calculate_brightness_smoothed`: accumulate the
double-weighted trapezoid areas of the pattern segments clipped to the
smoothing window `[sStart, sEnd)`.  Per iteration (segment running from
`startTime` to `endT`): if `sStart` lies inside the segment the clipped
interval starts at `sStart`; if `sStart` is before the segment it starts
at the segment start; otherwise the segment is skipped (the `continue`).
The interval ends at `t2 = min endT sEnd`; the loop breaks once `t2`
reaches the window end, and otherwise stops after the terminator point
(target 0), as all pattern loops in `fireflies.c` do.  `full` is the
whole pattern, used for the `calculate_brightness_unsmoothed` calls. -/
def smoothedAux (full : List FlashPoint) :
    List FlashPoint → Int → Int → Int → Int
  | [], _, _, _ => 0
  | p :: rest, startTime, sStart, sEnd =>
    if sStart ≥ startTime ∧ sStart < startTime + p.time then
      if min (startTime + p.time) sEnd = sEnd then
        smoothedTerm full sStart (min (startTime + p.time) sEnd)
      else if p.target = 0 then
        smoothedTerm full sStart (min (startTime + p.time) sEnd)
      else
        smoothedTerm full sStart (min (startTime + p.time) sEnd) +
          smoothedAux full rest (min (startTime + p.time) sEnd) sStart sEnd
    else if sStart < startTime then
      if min (startTime + p.time) sEnd = sEnd then
        smoothedTerm full startTime (min (startTime + p.time) sEnd)
      else if p.target = 0 then
        smoothedTerm full startTime (min (startTime + p.time) sEnd)
      else
        smoothedTerm full startTime (min (startTime + p.time) sEnd) +
          smoothedAux full rest (min (startTime + p.time) sEnd) sStart sEnd
    else if p.target = 0 then 0
    else smoothedAux full rest (startTime + p.time) sStart sEnd

/-- Embedding of `calculate_brightness_smoothed`: the smoothing window
is `[flash_time - half, flash_time - half + width)` with
`half = smoothing >> 1` (arithmetic shift, i.e. `Int.fdiv` by 2) and
`width = (half << 1) + 1` (the C code reuses the variable `smoothing`
for the width); return 0 if the window ends before time 0 or starts
after the pattern length, otherwise divide the accumulated
double-weighted sum by `2 * width` (C truncated division). -/
def calculate_brightness_smoothed (pts : List FlashPoint)
    (flash_time : Int) (smoothing : Int) : Int :=
  let half_smooth := Int.fdiv smoothing 2
  let width := 2 * half_smooth + 1
  let smooth_start := flash_time - half_smooth
  let smooth_end := smooth_start + width
  let flash_length := calculate_flash_length pts
  if smooth_end < 0 ∨ smooth_start > flash_length then 0
  else Int.tdiv (smoothedAux pts pts 0 smooth_start smooth_end) (2 * width)

/-- Firefly state (`firefly_type`), with the pattern selected by index
into `flash_patterns`. -/
structure Firefly where
  brightness : Int
  flashing : Bool
  flash_id : Nat
  flash_time : Int
  smoothing : Int
  delay_len : Int
  delay_time : Int
deriving DecidableEq

/-- The firefly animation time step `FIREFLY_TIMESTEP = LED_COUNT`. -/
def FIREFLY_TIMESTEP : Nat := LED_COUNT

/-- The flash pattern selected by a firefly's `flash_id`. -/
def flash_pattern_of (id : Nat) : List FlashPoint := flash_patterns.getD id []

/-- Embedding of `firefly_step`: advance `flash_time` by the time step,
recompute the smoothed brightness at the new time, and clear the
`flashing` flag iff the new brightness is 0 and
`smoothing < flash_time` (the new flash time). -/
def firefly_step (f : Firefly) (time_step : Int) : Firefly :=
  let t := f.flash_time + time_step
  let b := calculate_brightness_smoothed (flash_pattern_of f.flash_id) t
    f.smoothing
  { f with
    flash_time := t
    brightness := b
    flashing := if b = 0 ∧ f.smoothing < t then false else f.flashing }

/-- A pattern whose points all have targets in [0, 1000] and nonnegative
times; every row of `flash_patterns` satisfies this. -/
abbrev GoodPattern (pts : List FlashPoint) : Prop :=
  ∀ p ∈ pts, 0 ≤ p.target ∧ p.target ≤ 1000 ∧ 0 ≤ p.time

/-! ## Helper lemmas -/

theorem tdiv_le_of_le_mul {a b c : Int} (hb : 0 < b) (ha : 0 ≤ a)
    (h : a ≤ c * b) : a.tdiv b ≤ c := by
  rw [Int.tdiv_eq_ediv ha hb.le]
  calc a / b ≤ c * b / b := Int.ediv_le_ediv hb h
    _ = c := Int.mul_ediv_cancel c (by omega)

theorem interp_bounds (T x p c : Int) (hT : 0 < T) (hx0 : 0 ≤ x)
    (hxT : x ≤ T) (hp0 : 0 ≤ p) (hp1 : p ≤ 1000) (hc0 : 0 ≤ c)
    (hc1 : c ≤ 1000) :
    0 ≤ Int.tdiv (x * (c - p)) T + p ∧
      Int.tdiv (x * (c - p)) T + p ≤ 1000 := by
  rcases le_total p c with hpc | hcp
  · have ha : 0 ≤ x * (c - p) := mul_nonneg hx0 (by omega)
    have h1 : 0 ≤ (x * (c - p)).tdiv T := Int.tdiv_nonneg ha hT.le
    have h2 : (x * (c - p)).tdiv T ≤ c - p :=
      tdiv_le_of_le_mul hT ha (by nlinarith)
    omega
  · have ha : 0 ≤ x * (p - c) := mul_nonneg hx0 (by omega)
    have h1 : 0 ≤ (x * (p - c)).tdiv T := Int.tdiv_nonneg ha hT.le
    have h2 : (x * (p - c)).tdiv T ≤ p - c :=
      tdiv_le_of_le_mul hT ha (by nlinarith)
    have hneg : x * (c - p) = -(x * (p - c)) := by ring
    rw [hneg, Int.neg_tdiv]
    omega


theorem unsmoothedAux_bounds :
    ∀ (pts : List FlashPoint), GoodPattern pts →
    ∀ (prevT endT t : Int), 0 ≤ prevT → prevT ≤ 1000 → endT ≤ t →
    0 ≤ unsmoothedAux pts prevT endT t ∧
      unsmoothedAux pts prevT endT t ≤ 1000 := by
  intro pts
  induction pts with
  | nil =>
    intro _ prevT endT t _ _ _
    simp [unsmoothedAux]
  | cons p rest ih =>
    intro good prevT endT t hp0 hp1 het
    have goodp := good p (List.mem_cons_self p rest)
    have goodrest : GoodPattern rest := fun q hq => good q (List.mem_cons_of_mem p hq)
    simp only [unsmoothedAux]
    split_ifs with h1 h2 h3
    · exact ⟨le_refl 0, by norm_num⟩
    · exact interp_bounds p.time (p.time - (endT + p.time - t))
        prevT p.target (by omega) (by omega) (by omega) hp0 hp1
        goodp.1 goodp.2.1
    · exact ⟨le_refl 0, by norm_num⟩
    · exact ih goodrest p.target (endT + p.time) t goodp.1 goodp.2.1 (by omega)

theorem calculate_brightness_unsmoothed_bounds (pts : List FlashPoint)
    (hg : GoodPattern pts) (t : Int) :
    0 ≤ calculate_brightness_unsmoothed pts t ∧
      calculate_brightness_unsmoothed pts t ≤ 1000 := by
  unfold calculate_brightness_unsmoothed
  split_ifs with h
  · exact ⟨le_refl 0, by norm_num⟩
  · exact unsmoothedAux_bounds pts hg 0 0 t (le_refl 0) (by norm_num) (by omega)

theorem smoothedTerm_bounds (full : List FlashPoint) (hfull : GoodPattern full)
    (t1 t2 : Int) (h : t1 ≤ t2) :
    0 ≤ smoothedTerm full t1 t2 ∧
      smoothedTerm full t1 t2 ≤ 2000 * (t2 - t1) := by
  obtain ⟨hb1, hb1'⟩ := calculate_brightness_unsmoothed_bounds full hfull t1
  obtain ⟨hb2, hb2'⟩ := calculate_brightness_unsmoothed_bounds full hfull t2
  unfold smoothedTerm
  constructor
  · exact mul_nonneg (by omega) (by omega)
  · nlinarith

theorem and_two_pow_eq_zero (n k : Nat) :
    (n &&& 2 ^ k = 0) = (n.testBit k = false) := by
  rw [Nat.and_two_pow]
  cases h : n.testBit k
  · simp [h]
  · have h2 : (2 : Nat) ^ k ≠ 0 := pow_ne_zero k (by norm_num)
    simp [h, h2]

theorem and_fff_eq_mod (n : Nat) : n &&& 4095 = n % 4096 := by
  have h : (4095 : Nat) = 2 ^ 12 - 1 := rfl
  rw [h, Nat.and_pow_two_sub_one_eq_mod]

/-- C6: every `led_update_brightness` invocation produces exactly the
sequence: analog switch disabled (NENABLE = PA12 driven high), DAC data
register written with the brightness (reduced to its low 12 bits), the
three select lines driven with the binary code of the channel, analog
switch re-enabled (NENABLE driven low) — and no other event, in no other
order. -/
theorem C6_glitch_safe_order (led_id v : Nat) :
    led_update_brightness led_id v =
      [LedEvent.gpioSet 12 true,
       LedEvent.dacWrite (v % 4096),
       LedEvent.gpioSet 9 (led_id.testBit 0),
       LedEvent.gpioSet 10 (led_id.testBit 1),
       LedEvent.gpioSet 11 (led_id.testBit 2),
       LedEvent.gpioSet 12 false] := by
  have h1 := and_two_pow_eq_zero led_id 1
  have h2 := and_two_pow_eq_zero led_id 2
  norm_num at h1 h2
  simp [led_update_brightness, dac_enable_output, dac_set_output,
    dac_set_led, List.range_succ, and_fff_eq_mod, h1, h2]
  rcases Nat.mod_two_eq_zero_or_one led_id with h | h <;> simp [h]

/-- C10: the value written to the DAC data register by `dac_set_output`
is the argument reduced modulo 4096, also when the value went through
the `int32_t` brightness store of `led_set_brightness` first (reduction
mod `2^32`), and is therefore always in [0, 4095]. -/
theorem C10_dac_write_masked (v : Nat) :
    dac_set_output v = [LedEvent.dacWrite (v % 4096)] ∧
    dac_set_output (v % 2 ^ 32) = [LedEvent.dacWrite (v % 4096)] ∧
    v % 4096 < 4096 := by
  refine ⟨by simp [dac_set_output, and_fff_eq_mod], ?_, Nat.mod_lt v (by norm_num)⟩
  have h2 : (v % 2 ^ 32) &&& 4095 = v % 4096 := by
    rw [and_fff_eq_mod, Nat.mod_mod_of_dvd v (by norm_num)]
  simp only [dac_set_output]
  rw [show (0xFFF : Nat) = 4095 from rfl, h2]

/-- C8: over `LED_COUNT = 8` consecutive invocations of
`led_periodic_callback` starting from any pointer value `s < 8`, the
addressed channels are `s, s+1 mod 8, ..., s+7 mod 8`: every channel is
addressed exactly once, in increasing order wrapping to 0 after 7. -/
theorem C8_round_robin (s : Nat) (hs : s < LED_COUNT) :
    led_rounds s LED_COUNT =
      (List.range LED_COUNT).map (fun k => (s + k) % LED_COUNT) ∧
    ∀ c : Nat, c < LED_COUNT → (led_rounds s LED_COUNT).count c = 1 := by
  revert s hs
  decide

/-- Witness for C8 at pointer value 3. -/
theorem C8_round_robin_witness :
    led_rounds 3 LED_COUNT =
      (List.range LED_COUNT).map (fun k => (3 + k) % LED_COUNT) ∧
    ∀ c : Nat, c < LED_COUNT → (led_rounds 3 LED_COUNT).count c = 1 :=
  C8_round_robin 3 (by decide)

/-- C7: `calculate_flash_length` returns the sum of the durations of all
flash points up to and including the first zero-target point, and in
particular returns 1000 on the Photinus lewisi pattern
`{(500,100),(500,800),(0,100)}` (`flash_patterns[1]`). -/
theorem C7_flash_length :
    (∀ (pre post : List FlashPoint) (p : FlashPoint),
      (∀ q ∈ pre, q.target ≠ 0) → p.target = 0 →
      calculate_flash_length (pre ++ p :: post) =
        (pre.map FlashPoint.time).sum + p.time) ∧
    calculate_flash_length (flash_patterns.getD 1 []) = 1000 := by
  constructor
  · intro pre
    induction pre with
    | nil =>
      intro post p _ hp
      simp [calculate_flash_length, hp]
    | cons q pre ih =>
      intro post p hpre hp
      have hq : q.target ≠ 0 := hpre q (List.mem_cons_self q pre)
      have ih' := ih post p (fun r hr => hpre r (List.mem_cons_of_mem q hr)) hp
      show calculate_flash_length (q :: (pre ++ p :: post)) = _
      rw [calculate_flash_length, if_neg hq, ih']
      simp only [List.map_cons, List.sum_cons]
      ring
  · decide

/-- Witness for C7 on the lewisi pattern split at its terminator. -/
theorem C7_flash_length_witness :
    calculate_flash_length
        ([⟨500, 100⟩, ⟨500, 800⟩] ++ (⟨0, 100⟩ : FlashPoint) :: []) =
      (([⟨500, 100⟩, ⟨500, 800⟩] : List FlashPoint).map FlashPoint.time).sum
        + 100 :=
  C7_flash_length.1 [⟨500, 100⟩, ⟨500, 800⟩] [] ⟨0, 100⟩ (by decide) rfl

theorem runTask_mem_slot_events (c i j : Nat) (s : TaskSlot) :
    TickEvent.runTask j ∈ slot_events c i s ↔
      (j = i ∧ ((c + i) % 2 ^ 32) % s.period = 0 ∧ s.task.isSome) := by
  unfold slot_events
  split_ifs with h
  · constructor
    · intro hm
      rcases List.mem_cons.1 hm with he | hm2
      · exact absurd he (by simp)
      · have hj : j = i := by simpa using hm2
        exact ⟨hj, h⟩
    · rintro ⟨rfl, _⟩
      exact List.mem_cons_of_mem _ (by simp)
  · constructor
    · intro hm
      rcases List.mem_cons.1 hm with he | hm2
      · exact absurd he (by simp)
      · simp at hm2
    · rintro ⟨rfl, hcond⟩
      exact absurd hcond h

theorem runTask_not_mem_tick_trace_aux (c : Nat) :
    ∀ (slots : List TaskSlot) (i j : Nat), j < i →
    TickEvent.runTask j ∉ tick_trace_aux c i slots := by
  intro slots
  induction slots with
  | nil => intro i j _ h; simp [tick_trace_aux] at h
  | cons s rest ih =>
    intro i j hj h
    rw [tick_trace_aux, List.mem_append] at h
    rcases h with h | h
    · exact absurd ((runTask_mem_slot_events c i j s).1 h).1 (by omega)
    · exact ih (i + 1) j (by omega) h

theorem runTask_mem_tick_trace_aux (c : Nat) :
    ∀ (slots : List TaskSlot) (i k : Nat) (h : k < slots.length),
    TickEvent.runTask (i + k) ∈ tick_trace_aux c i slots ↔
      (((c + (i + k)) % 2 ^ 32) % (slots.get ⟨k, h⟩).period = 0 ∧
        (slots.get ⟨k, h⟩).task.isSome) := by
  intro slots
  induction slots with
  | nil => intro i k h; simp at h
  | cons s rest ih =>
    intro i k h
    rw [tick_trace_aux, List.mem_append]
    match k with
    | 0 =>
      simp only [List.get]
      rw [runTask_mem_slot_events]
      constructor
      · rintro (⟨_, hm, hs⟩ | hmem)
        · simpa using ⟨hm, hs⟩
        · exact absurd hmem
            (runTask_not_mem_tick_trace_aux c rest (i + 1) (i + 0) (by omega))
      · rintro ⟨hm, hs⟩
        exact Or.inl ⟨rfl, by simpa using hm, hs⟩
    | k + 1 =>
      simp only [List.get]
      have hk : k < rest.length := by simpa using h
      have heq : i + (k + 1) = (i + 1) + k := by omega
      rw [heq]
      constructor
      · rintro (hmem | hmem)
        · have := ((runTask_mem_slot_events c i ((i + 1) + k) s).1 hmem).1
          omega
        · exact (ih (i + 1) k hk).1 hmem
      · intro hcond
        exact Or.inr ((ih (i + 1) k hk).2 hcond)

/-- C1: on the tick whose (post-increment) counter value is `c`, the
occupied slot `i` holding task `f` with period `P` is invoked iff
`(c + i) mod P = 0` (uint32 wrapping addition, per spec §4.1); and for
two tasks in slots 0 and 1 both with period 5, over the ticks with
counter values 0..9, slot 0 runs exactly at counter values {0, 5} and
slot 1 exactly at {4, 9}. -/
theorem C1_scheduler_phase :
    (∀ (counter : Nat) (slots : List TaskSlot) (i f P : Nat)
        (h : i < slots.length), slots.get ⟨i, h⟩ = ⟨some f, P⟩ →
        (TickEvent.runTask i ∈ (execute_tasks counter slots).2 ↔
          (((counter + 1) % 2 ^ 32 + i) % 2 ^ 32) % P = 0)) ∧
    (∀ t : Nat, t < 10 →
      ((TickEvent.runTask 0 ∈ tick_trace t scheduler_demo_slots ↔
          (t = 0 ∨ t = 5)) ∧
        (TickEvent.runTask 1 ∈ tick_trace t scheduler_demo_slots ↔
          (t = 4 ∨ t = 9)))) := by
  constructor
  · intro counter slots i f P h hslot
    have hmem := runTask_mem_tick_trace_aux ((counter + 1) % 2 ^ 32)
      slots 0 i h
    simp only [Nat.zero_add] at hmem
    rw [show (execute_tasks counter slots).2 =
      tick_trace ((counter + 1) % 2 ^ 32) slots from rfl, tick_trace, hmem,
      hslot]
    simp
  · decide

/-- Witness for C1: the generic part applied at a tick with counter
value 5 on the demo configuration. -/
theorem C1_scheduler_phase_witness :
    TickEvent.runTask 0 ∈ (execute_tasks 4 scheduler_demo_slots).2 ↔
      (((4 + 1) % 2 ^ 32 + 0) % 2 ^ 32) % 5 = 0 :=
  C1_scheduler_phase.1 4 scheduler_demo_slots 0 0 5 (by decide) rfl

/-- C2 fails on the code: in the state reached after `led_init` and
`firefly_init` (slots 0 and 1 occupied, slots 2..9 empty with period 0),
the very first tick evaluates the modulo `(counter + i) % period` at the
empty slot 2 with divisor 0 — the `&&` in `execute_tasks` evaluates the
modulo before the `task != NULL` test, so the clamp in
`system_add_task` does not protect the empty slots. -/
theorem C2_tick_divides_by_zero :
    TickEvent.modOp 3 0 ∈ (execute_tasks 0 firefly_jar_init_slots).2 := by
  decide

/-- C3: a step of the animation engine on a FLASHING firefly clears the
`flashing` flag iff the recomputed smoothed brightness is 0 and the new
flash time exceeds the firefly's `smoothing` parameter (the quantity the
spec §4.2 calls the smoothing half-width, compared in full by the guard
`smoothing < flash_time`). -/
theorem C3_flash_exit (f : Firefly) (ts : Int) (hf : f.flashing = true) :
    (firefly_step f ts).flashing = false ↔
      ((firefly_step f ts).brightness = 0 ∧
        f.smoothing < (firefly_step f ts).flash_time) := by
  simp only [firefly_step]
  by_cases h : calculate_brightness_smoothed (flash_pattern_of f.flash_id)
      (f.flash_time + ts) f.smoothing = 0 ∧ f.smoothing < f.flash_time + ts
  · simp [h]
  · simp only [if_neg h, hf]
    constructor
    · intro hc; exact absurd hc (by simp)
    · intro hc; exact absurd hc h

/-- Witness for C3: a firefly far past the end of its pattern exits the
FLASHING state on the next step. -/
theorem C3_flash_exit_witness :
    (firefly_step ⟨0, true, 1, 2000, 50, 0, 0⟩ 8).flashing = false ↔
      ((firefly_step ⟨0, true, 1, 2000, 50, 0, 0⟩ 8).brightness = 0 ∧
        (⟨0, true, 1, 2000, 50, 0, 0⟩ : Firefly).smoothing <
          (firefly_step ⟨0, true, 1, 2000, 50, 0, 0⟩ 8).flash_time) :=
  C3_flash_exit ⟨0, true, 1, 2000, 50, 0, 0⟩ 8 rfl

/-- C5 fails on the code: starting from the fresh task list, register
task 1, register task 7, then remove task 1; task 7 is now registered
(slot 1) with an empty slot 0 before it.  Re-registering task 7 is not a
no-op: `system_add_task` writes into the first empty slot, leaving two
active registrations of task 7. -/
theorem C5_counterexample :
    (∃ s ∈ system_remove_task 1
        (system_add_task 7 3 (system_add_task 1 1 fresh_task_list)),
      s.task = some 7) ∧
    system_add_task 7 3 (system_remove_task 1
        (system_add_task 7 3 (system_add_task 1 1 fresh_task_list))) ≠
      system_remove_task 1
        (system_add_task 7 3 (system_add_task 1 1 fresh_task_list)) ∧
    ((system_add_task 7 3 (system_remove_task 1
        (system_add_task 7 3 (system_add_task 1 1 fresh_task_list)))).countP
      (fun s => s.task = some 7)) = 2 := by
  decide

/-- C5 amended: re-registering an already-registered callback is a no-op
(leaving its single registration in place) provided no empty slot
precedes its registration; and registering a new callback when every
slot is occupied is a no-op that leaves every entry unchanged. -/
theorem C5_amended_registration :
    (∀ (tsk prd : Nat) (pre post : List TaskSlot) (s : TaskSlot),
      s.task = some tsk →
      (∀ q ∈ pre, q.task ≠ none ∧ q.task ≠ some tsk) →
      system_add_task tsk prd (pre ++ s :: post) = pre ++ s :: post) ∧
    (∀ (tsk prd : Nat) (slots : List TaskSlot),
      (∀ q ∈ slots, q.task ≠ none ∧ q.task ≠ some tsk) →
      system_add_task tsk prd slots = slots) := by
  constructor
  · intro tsk prd pre
    induction pre with
    | nil =>
      intro post s hs _
      simp only [List.nil_append, system_add_task, hs]
      simp
    | cons q pre ih =>
      intro post s hs hpre
      have hq := hpre q (List.mem_cons_self q pre)
      simp only [List.cons_append, system_add_task, if_neg hq.1, if_neg hq.2]
      show q :: system_add_task tsk prd (pre ++ s :: post) = _
      rw [ih post s hs (fun r hr => hpre r (List.mem_cons_of_mem q hr))]
  · intro tsk prd slots
    induction slots with
    | nil => intro _; rfl
    | cons q rest ih =>
      intro hall
      have hq := hall q (List.mem_cons_self q rest)
      simp only [system_add_task, if_neg hq.1, if_neg hq.2,
        ih (fun r hr => hall r (List.mem_cons_of_mem q hr))]

/-- Witness for the amended C5: re-registration behind a fully occupied
prefix, and registration into a fully occupied list. -/
theorem C5_amended_registration_witness :
    system_add_task 7 5 ([⟨some 2, 4⟩] ++ (⟨some 7, 3⟩ : TaskSlot) :: []) =
      [⟨some 2, 4⟩] ++ (⟨some 7, 3⟩ : TaskSlot) :: [] ∧
    system_add_task 7 5 [⟨some 2, 4⟩] = [⟨some 2, 4⟩] :=
  ⟨C5_amended_registration.1 7 5 [⟨some 2, 4⟩] [] ⟨some 7, 3⟩ rfl
      (by decide),
    C5_amended_registration.2 7 5 [⟨some 2, 4⟩] (by decide)⟩

theorem smoothedAux_bounds (full : List FlashPoint) (hfull : GoodPattern full)
    (sStart sEnd : Int) (hss : sStart < sEnd) :
    ∀ (pts : List FlashPoint), GoodPattern pts →
    ∀ (st : Int), st ≤ sEnd →
    0 ≤ smoothedAux full pts st sStart sEnd ∧
      smoothedAux full pts st sStart sEnd ≤
        2000 * (sEnd - max st sStart) := by
  intro pts
  induction pts with
  | nil =>
    intro _ st hst
    have hmx : max st sStart ≤ sEnd := max_le hst hss.le
    constructor
    · simp [smoothedAux]
    · simp only [smoothedAux]
      nlinarith
  | cons p rest ih =>
    intro good st hst
    have goodp := good p (List.mem_cons_self p rest)
    have goodrest : GoodPattern rest :=
      fun q hq => good q (List.mem_cons_of_mem p hq)
    have ihr := ih goodrest
    simp only [smoothedAux]
    split_ifs with hA hB1 hB2 hD hB3 hB4 hE
    · -- sStart inside segment, window end reached
      rw [hB1, max_eq_right hA.1]
      exact smoothedTerm_bounds full hfull sStart sEnd hss.le
    · -- sStart inside segment, terminator reached before the window end
      have ht12 : sStart ≤ min (st + p.time) sEnd :=
        le_min hA.2.le hss.le
      have hbd := smoothedTerm_bounds full hfull sStart _ ht12
      have hm : min (st + p.time) sEnd ≤ sEnd := min_le_right _ _
      rw [max_eq_right hA.1]
      exact ⟨hbd.1, by nlinarith [hbd.2]⟩
    · -- sStart inside segment, continue to the next segment
      have hmin2 : st + p.time < sEnd := by
        rcases lt_trichotomy (st + p.time) sEnd with hlt | heq | hgt
        · exact hlt
        · exact absurd (by rw [heq]; exact min_self sEnd) hB1
        · exact absurd (min_eq_right hgt.le) hB1
      have hmin1 : min (st + p.time) sEnd = st + p.time :=
        min_eq_left hmin2.le
      rw [hmin1]
      have hbd := smoothedTerm_bounds full hfull sStart (st + p.time) hA.2.le
      have hrec := ihr (st + p.time) hmin2.le
      rw [max_eq_left hA.2.le] at hrec
      rw [max_eq_right hA.1]
      exact ⟨add_nonneg hbd.1 hrec.1, by linarith [hbd.2, hrec.2]⟩
    · -- sStart before segment, window end reached
      rw [hB3, max_eq_left hD.le]
      exact smoothedTerm_bounds full hfull st sEnd hst
    · -- sStart before segment, terminator reached before the window end
      have ht12 : st ≤ min (st + p.time) sEnd :=
        le_min (by have := goodp.2.2; omega) hst
      have hbd := smoothedTerm_bounds full hfull st _ ht12
      have hm : min (st + p.time) sEnd ≤ sEnd := min_le_right _ _
      rw [max_eq_left hD.le]
      exact ⟨hbd.1, by nlinarith [hbd.2]⟩
    · -- sStart before segment, continue to the next segment
      have hmin2 : st + p.time < sEnd := by
        rcases lt_trichotomy (st + p.time) sEnd with hlt | heq | hgt
        · exact hlt
        · exact absurd (by rw [heq]; exact min_self sEnd) hB3
        · exact absurd (min_eq_right hgt.le) hB3
      have hmin1 : min (st + p.time) sEnd = st + p.time :=
        min_eq_left hmin2.le
      rw [hmin1]
      have ht12 : st ≤ st + p.time := by have := goodp.2.2; omega
      have hbd := smoothedTerm_bounds full hfull st (st + p.time) ht12
      have hrec := ihr (st + p.time) hmin2.le
      have hsle : sStart ≤ st + p.time := by omega
      rw [max_eq_left hsle] at hrec
      rw [max_eq_left hD.le]
      exact ⟨add_nonneg hbd.1 hrec.1, by linarith [hbd.2, hrec.2]⟩
    · -- segment skipped, terminator
      have hmx : max st sStart ≤ sEnd := max_le hst hss.le
      exact ⟨le_refl 0, by nlinarith⟩
    · -- segment skipped, continue
      have hge : st ≤ sStart ∧ st + p.time ≤ sStart := by
        constructor
        · omega
        · by_contra hco
          exact hA ⟨by omega, by omega⟩
      have hrec := ihr (st + p.time) (le_trans hge.2 hss.le)
      rw [max_eq_right hge.2] at hrec
      rw [max_eq_right hge.1]
      exact hrec

theorem calculate_brightness_smoothed_bounds (pts : List FlashPoint)
    (hg : GoodPattern pts) (t s : Int) (hs : 0 ≤ s) :
    0 ≤ calculate_brightness_smoothed pts t s ∧
      calculate_brightness_smoothed pts t s ≤ 1000 := by
  have hhalf : 0 ≤ Int.fdiv s 2 := by
    rw [Int.fdiv_eq_ediv s (by norm_num)]
    exact Int.ediv_nonneg hs (by norm_num)
  simp only [calculate_brightness_smoothed]
  split_ifs with h
  · exact ⟨le_refl 0, by norm_num⟩
  · push_neg at h
    set half := Int.fdiv s 2 with hhdef
    set w := 2 * half + 1 with hwdef
    have hw : 0 < w := by omega
    have hss : t - half < t - half + w := by omega
    have hb := smoothedAux_bounds pts hg (t - half) (t - half + w) hss
      pts hg 0 (by omega)
    have hmx : t - half ≤ max 0 (t - half) := le_max_right _ _
    have hS2 : smoothedAux pts pts 0 (t - half) (t - half + w) ≤
        1000 * (2 * w) := by nlinarith [hb.2]
    exact ⟨Int.tdiv_nonneg hb.1 (by omega),
      tdiv_le_of_le_mul (by omega) hb.1 hS2⟩

/-- C9: on every defined flash pattern, for every signed flash time and
every nonnegative smoothing value, both the unsmoothed and the smoothed
brightness stay in [0, 1000]. -/
theorem C9_brightness_in_range :
    ∀ pat ∈ flash_patterns, ∀ (t s : Int), 0 ≤ s →
    (0 ≤ calculate_brightness_unsmoothed pat t ∧
      calculate_brightness_unsmoothed pat t ≤ 1000) ∧
    (0 ≤ calculate_brightness_smoothed pat t s ∧
      calculate_brightness_smoothed pat t s ≤ 1000) := by
  intro pat hpat t s hs
  have hall : ∀ q ∈ flash_patterns, GoodPattern q := by decide
  have hg : GoodPattern pat := hall pat hpat
  exact ⟨calculate_brightness_unsmoothed_bounds pat hg t,
    calculate_brightness_smoothed_bounds pat hg t s hs⟩

/-- Witness for C9 on the Photinus pallens pattern at flash time 100
with smoothing 50. -/
theorem C9_brightness_in_range_witness :
    (0 ≤ calculate_brightness_unsmoothed flash_pattern_pallens 100 ∧
      calculate_brightness_unsmoothed flash_pattern_pallens 100 ≤ 1000) ∧
    (0 ≤ calculate_brightness_smoothed flash_pattern_pallens 100 50 ∧
      calculate_brightness_smoothed flash_pattern_pallens 100 50 ≤ 1000) :=
  C9_brightness_in_range flash_pattern_pallens (by decide) 100 50 (by decide)

theorem smoothedAux_end_zero (full : List FlashPoint) (p : FlashPoint)
    (rest : List FlashPoint) (sStart : Int) (hp : 0 < p.time)
    (hs : sStart < 0) :
    smoothedAux full (p :: rest) 0 sStart 0 = 0 := by
  have hA : ¬(sStart ≥ (0 : Int) ∧ sStart < 0 + p.time) := by omega
  have hmin : min ((0 : Int) + p.time) 0 = 0 := min_eq_right (by omega)
  rw [smoothedAux, if_neg hA, if_pos hs, hmin, if_pos rfl]
  simp [smoothedTerm]

/-- C4: on every defined flash pattern, for every flash time and every
nonnegative smoothing value, the smoothed brightness is 0 whenever the
smoothing window `[t - half, t - half + width)` (with
`half = smoothing >> 1` and `width = 2 * half + 1`) lies entirely
outside `[0, pattern_length]`. -/
theorem C4_window_rejection :
    ∀ pat ∈ flash_patterns, ∀ (t s : Int), 0 ≤ s →
    (∀ x : Int, t - Int.fdiv s 2 ≤ x →
      x < t - Int.fdiv s 2 + (2 * Int.fdiv s 2 + 1) →
      (x < 0 ∨ x > calculate_flash_length pat)) →
    calculate_brightness_smoothed pat t s = 0 := by
  intro pat hpat t s hs hout
  have hhalf : 0 ≤ Int.fdiv s 2 := by
    rw [Int.fdiv_eq_ediv s (by norm_num)]
    exact Int.ediv_nonneg hs (by norm_num)
  have hLpos : 0 < calculate_flash_length pat := by
    have hall : ∀ q ∈ flash_patterns, 0 < calculate_flash_length q := by
      decide
    exact hall pat hpat
  have hhead : pat ≠ [] ∧ 0 < (pat.headD ⟨0, 0⟩).time := by
    have hall : ∀ q ∈ flash_patterns,
        q ≠ [] ∧ 0 < (q.headD ⟨0, 0⟩).time := by decide
    exact hall pat hpat
  simp only [calculate_brightness_smoothed]
  split_ifs with h
  · rfl
  · push_neg at h
    set half := Int.fdiv s 2 with hhdef
    set w := 2 * half + 1 with hwdef
    have hsend : t - half + w ≤ 0 := by
      by_contra hpos
      push_neg at hpos
      rcases hout (max (t - half) 0) (le_max_left _ _)
          (max_lt (show t - half < t - half + w by omega) hpos) with hx | hx
      · have hge : (0 : Int) ≤ max (t - half) 0 := le_max_right _ _
        omega
      · have h2 : max (t - half) 0 ≤ calculate_flash_length pat :=
          max_le h.2 hLpos.le
        omega
    have hzero : t - half + w = 0 := by omega
    obtain ⟨p, rest, hpr⟩ : ∃ p rest, pat = p :: rest := by
      cases pat with
      | nil => exact absurd rfl hhead.1
      | cons a l => exact ⟨a, l, rfl⟩
    have hptime : 0 < p.time := by
      rw [hpr] at hhead
      simpa using hhead.2
    have hsneg : t - half < 0 := by omega
    rw [hzero, hpr,
      smoothedAux_end_zero (p :: rest) p rest (t - half) hptime hsneg]
    exact Int.zero_tdiv _

/-- Witness for C4: the lewisi pattern with the window entirely before
time 0. -/
theorem C4_window_rejection_witness :
    calculate_brightness_smoothed flash_pattern_lewisi (-1000) 50 = 0 :=
  C4_window_rejection flash_pattern_lewisi (by decide) (-1000) 50
    (by decide)
    (by
      intro x h1 h2
      left
      have h3 : Int.fdiv 50 2 = 25 := by decide
      omega)
